import Mathlib

/-!
Verification of the ArborX sources: the fixed-capacity vectors of
`src/misc/ArborX_Containers.hpp`, the Cartesian grid of
`src/details/ArborX_DetailsCartesianGrid.hpp`, and the batched query driver
of `examples/bvh_driver/bvh_driver.cpp`, shallowly embedded in Lean.
Machine floating-point values are modelled by rationals, `size_t` by `Nat`
with an explicit width bound, and a `KOKKOS_ASSERT`/`ARBORX_ASSERT` failure
by `Option.none`.
-/

namespace ArborX

/-! ### Fixed-capacity vectors (`ArborX_Containers.hpp`) -/

/-- Owned fixed-capacity vector `StaticVector<T, N>`.  The C++ class keeps an
inline array `value_type _data[N]` and a running size `_size`; the two proof
fields record the C++ facts that the storage always has exactly `N` slots and
that `_size` never exceeds `N` (every growth path asserts `size() < maxSize()`
first). -/
structure StaticVector (α : Type) (N : Nat) where
  data : List α
  size : Nat
  hdata : data.length = N
  hsize : size ≤ N

/-- `StaticVector::pushBack`: `KOKKOS_ASSERT(size() < maxSize()); _data[_size++] = value;`. -/
def StaticVector.pushBack {α : Type} {N : Nat} (v : StaticVector α N) (x : α) :
    Option (StaticVector α N) :=
  if h : v.size < N then
    some ⟨v.data.set v.size x, v.size + 1, by simpa using v.hdata, h⟩
  else none

/-- `StaticVector::emplaceBack`: asserts `size() < maxSize()` and
placement-constructs the value in slot `_size`, then increments the size;
observationally it stores the constructed value exactly as `pushBack` does. -/
def StaticVector.emplaceBack {α : Type} {N : Nat} (v : StaticVector α N) (x : α) :
    Option (StaticVector α N) :=
  if h : v.size < N then
    some ⟨v.data.set v.size x, v.size + 1, by simpa using v.hdata, h⟩
  else none

/-- `StaticVector::operator[]`: `KOKKOS_ASSERT(pos < size()); return _data[pos];`. -/
def StaticVector.opIndex {α : Type} {N : Nat} (v : StaticVector α N) (pos : Nat) :
    Option α :=
  if h : pos < v.size then
    some (v.data.get ⟨pos, by rw [v.hdata]; exact lt_of_lt_of_le h v.hsize⟩)
  else none

/-- `StaticVector::front`: `KOKKOS_ASSERT(size() > 0); return _data[0];`. -/
def StaticVector.front {α : Type} {N : Nat} (v : StaticVector α N) : Option α :=
  if h : 0 < v.size then
    some (v.data.get ⟨0, by rw [v.hdata]; exact lt_of_lt_of_le h v.hsize⟩)
  else none

/-- `StaticVector::back`: `KOKKOS_ASSERT(size() > 0); return _data[_size - 1];`. -/
def StaticVector.back {α : Type} {N : Nat} (v : StaticVector α N) : Option α :=
  if h : 0 < v.size then
    some (v.data.get ⟨v.size - 1, by
      rw [v.hdata]
      exact lt_of_lt_of_le (Nat.sub_lt h Nat.one_pos) v.hsize⟩)
  else none

/-- Borrowed fixed-capacity vector `UnmanagedStaticVector<T>`: a pointer to
caller-owned storage of `_max_size` slots plus a running size. -/
structure UnmanagedStaticVector (α : Type) where
  data : List α
  maxSize : Nat
  size : Nat
  hdata : data.length = maxSize
  hsize : size ≤ maxSize

/-- `UnmanagedStaticVector::pushBack`: asserts `size() < maxSize()` then
writes through the borrowed pointer at offset `_size` and increments. -/
def UnmanagedStaticVector.pushBack {α : Type} (v : UnmanagedStaticVector α) (x : α) :
    Option (UnmanagedStaticVector α) :=
  if h : v.size < v.maxSize then
    some ⟨v.data.set v.size x, v.maxSize, v.size + 1, by simpa using v.hdata, h⟩
  else none

/-- `UnmanagedStaticVector::emplaceBack`: same guard and slot as `pushBack`,
placement-constructing the value. -/
def UnmanagedStaticVector.emplaceBack {α : Type} (v : UnmanagedStaticVector α) (x : α) :
    Option (UnmanagedStaticVector α) :=
  if h : v.size < v.maxSize then
    some ⟨v.data.set v.size x, v.maxSize, v.size + 1, by simpa using v.hdata, h⟩
  else none

/-- `UnmanagedStaticVector::operator[]`: asserts `pos < size()`. -/
def UnmanagedStaticVector.opIndex {α : Type} (v : UnmanagedStaticVector α) (pos : Nat) :
    Option α :=
  if h : pos < v.size then
    some (v.data.get ⟨pos, by rw [v.hdata]; exact lt_of_lt_of_le h v.hsize⟩)
  else none

/-- `UnmanagedStaticVector::front`: asserts `size() > 0`. -/
def UnmanagedStaticVector.front {α : Type} (v : UnmanagedStaticVector α) : Option α :=
  if h : 0 < v.size then
    some (v.data.get ⟨0, by rw [v.hdata]; exact lt_of_lt_of_le h v.hsize⟩)
  else none

/-- `UnmanagedStaticVector::back`: asserts `size() > 0`, reads slot `_size - 1`. -/
def UnmanagedStaticVector.back {α : Type} (v : UnmanagedStaticVector α) : Option α :=
  if h : 0 < v.size then
    some (v.data.get ⟨v.size - 1, by
      rw [v.hdata]
      exact lt_of_lt_of_le (Nat.sub_lt h Nat.one_pos) v.hsize⟩)
  else none

/-! ### Cartesian grid (`ArborX_DetailsCartesianGrid.hpp`) -/

/-- Largest value of `size_t` (64-bit), `std::numeric_limits<size_t>::max()`. -/
def maxSizeT : Nat := 2 ^ 64 - 1

/-- The overflow-check loop of `CartesianGrid::buildGrid`: starting from
`m = max_size_t`, for each axis `d` from 1 on it performs `m /= _n[d - 1]`
and asserts `_n[d] < m`.  `m` is the running quotient and `prev` the cell
count of the previous axis. -/
def overflowCheckFrom (m prev : Nat) : List Nat → Bool
  | [] => true
  | x :: xs => decide (x < m / prev) && overflowCheckFrom (m / prev) x xs

/-- The full overflow check of `buildGrid` over the per-axis cell counts
`_n[0], …, _n[DIM-1]`. -/
def overflowCheck : List Nat → Bool
  | [] => true
  | x :: xs => overflowCheckFrom maxSizeT x xs

/-- One iteration of the cell-count loop of `buildGrid`: for an axis with
extent `delta = max_corner[d] - min_corner[d]` and spacing `h`, either
`_n[d] = std::ceil(delta / h)` guarded by `ARBORX_ASSERT(_n[d] > 0)` when
`delta != 0`, or `_n[d] = 1` otherwise.  (A non-positive `std::ceil` result
converted to `size_t` is modelled by `Int.toNat`, which makes the assertion
fail exactly when the ceiling is not positive.) -/
def axisCellCount (delta h : Rat) : Option Nat :=
  if delta ≠ 0 then
    if 0 < (Int.ceil (delta / h)).toNat then some (Int.ceil (delta / h)).toNat
    else none
  else some 1

/-- Run a fallible computation on each element in order, aborting at the
first failed assertion, as the C++ `for` loops over axes do. -/
def mapOption {α β : Type} (f : α → Option β) : List α → Option (List β)
  | [] => some []
  | x :: xs => (f x).bind fun y => (mapOption f xs).map fun ys => y :: ys

/-- The cell-count phase of `buildGrid`: per-axis counts from the bounds
`(mins, maxs)` and spacings `h`, aborting if any per-axis assertion fails. -/
def buildGridCounts (mins maxs h : List Rat) : Option (List Nat) :=
  mapOption (fun p => axisCellCount (p.1.2 - p.1.1) p.2) ((mins.zip maxs).zip h)

/-- `CartesianGrid::buildGrid`: compute the per-axis cell counts, then run
the conservative overflow check on them; any failed assertion aborts. -/
def buildGrid (mins maxs h : List Rat) : Option (List Nat) :=
  (buildGridCounts mins maxs h).bind fun n =>
    if overflowCheck n then some n else none

/-- The uniform-spacing constructor `CartesianGrid(Box const &, float h)`:
`ARBORX_ASSERT(h > 0)`, fill every `_h[d]` with `h`, then `buildGrid()`.
Returns the spacing array and cell counts of the constructed grid. -/
def cartesianGridUniform (mins maxs : List Rat) (h : Rat) :
    Option (List Rat × List Nat) :=
  if 0 < h then
    let hs := List.replicate mins.length h
    (buildGrid mins maxs hs).map fun n => (hs, n)
  else none

/-- The loop of the per-axis constructor `CartesianGrid(Box const &, float
const h[DIM])` as written: at iteration `d` it executes
`ARBORX_ASSERT(_h[d] > 0); _h[d] = h[d];` — the assertion reads the member
`_h[d]` BEFORE it is assigned, i.e. the indeterminate initial contents of the
member array (first argument), not the supplied spacing (second argument). -/
def arrayCtorLoop : List Rat → List Rat → Option (List Rat)
  | [], [] => some []
  | hInit :: his, hv :: hvs =>
      if 0 < hInit then (arrayCtorLoop his hvs).map fun rest => hv :: rest
      else none
  | _, _ => none

/-- The per-axis-spacing constructor: run the (buggy) assignment loop over
the indeterminate initial member contents `hInit` and the supplied spacings
`h`, then `buildGrid()` on the spacings actually stored. -/
def cartesianGridArray (mins maxs : List Rat) (hInit h : List Rat) :
    Option (List Rat × List Nat) :=
  (arrayCtorLoop hInit h).bind fun hs =>
    (buildGrid mins maxs hs).map fun n => (hs, n)

/-! ### Batched query driver (`examples/bvh_driver/bvh_driver.cpp`)

The driver is generic in the tree traversal: `TreeTraversal<NO>::query(bvh,
query, callback)` invokes the callback once per matching primitive index, in
traversal order, and returns the number of hits.  Its implementation is
not among the sources, so it enters the embedding as an abstract function
`hits : Q → List Nat` giving, for each predicate, the list of matching
primitive indices in traversal order; the counting callback observes
`(hits q).length` and the appending callback observes the elements of
`hits q` in order. -/

/-- The "initialize offset" `parallel_for` of `query()`: its body is
`offset[i];` — it reads and discards the entry, writing nothing.  (The
entries are zero because `Kokkos::resize` value-initializes newly allocated
elements; see `replicate` at the call site.) -/
def initOffset (offset : List Nat) : List Nat :=
  (List.range offset.length).foldl (fun o _ => o) offset

/-- The count pass of `query()`: for each `i` in `[0, n_queries)` in the
`parallel_for` range, `offset(i) = TreeTraversal::query(bvh, queries(i),
noop)`, i.e. the number of hits of query `i`. -/
def countPass (counts offset : List Nat) : List Nat :=
  (List.range counts.length).foldl (fun o i => o.set i (counts.getD i 0)) offset

/-- One step of the `parallel_scan` body of `query()`: read `offset(i)`,
on the final pass write the running `update` into `offset(i)`, then add the
old value to `update`.  The state is `(update, prefix written so far)`. -/
def scanStep : Nat × List Nat → Nat → Nat × List Nat
  | (update, out), x => (update + x, out ++ [update])

/-- The `parallel_scan` of `query()` over `[0, n_queries + 1)`: an exclusive
prefix sum of the offset entries, written in place. -/
def exclusiveScan (xs : List Nat) : List Nat :=
  (xs.foldl scanStep (0, [])).2

/-- The appending callback of the second pass: `indices(offset(i) + count++)
= index` writes the hits of one query into consecutive slots starting at
`offset(i)`. -/
def writeBlock : List Nat → Nat → List Nat → List Nat
  | arr, _, [] => arr
  | arr, start, v :: vs => writeBlock (arr.set start v) (start + 1) vs

/-- The fill pass of `query()`: for each `i` in `[0, n_queries)`, re-run the
traversal of query `i` with the appending callback, writing its hits at
`offset(i)`.  The per-query index ranges are disjoint, so the faithful
sequentialization processes the queries in order. -/
def fillLoop {Q : Type} (hits : Q → List Nat) (offset : List Nat) :
    Nat → List Q → List Nat → List Nat
  | _, [], arr => arr
  | i, q :: qs, arr =>
      fillLoop hits offset (i + 1) qs (writeBlock arr (offset.getD i 0) (hits q))

/-- The batched query driver `query()` of `bvh_driver.cpp`: resize `offset`
to `n_queries + 1` (`Kokkos::resize` value-initializes the new entries to
zero), run the no-op initialization `parallel_for`, the count pass, the
exclusive `parallel_scan`, resize `indices` to the total count
`offset(n_queries)`, and the fill pass.  Returns `(offset, indices)`. -/
def queryDriver {Q : Type} (hits : Q → List Nat) (queries : List Q) :
    List Nat × List Nat :=
  let nq := queries.length
  let offset0 := initOffset (List.replicate (nq + 1) 0)
  let counts := queries.map fun q => (hits q).length
  let offset1 := countPass counts offset0
  let offset := exclusiveScan offset1
  let total := offset.getD nq 0
  let indices := fillLoop hits offset 0 queries (List.replicate total 0)
  (offset, indices)

/-! ### Example driver: structured cloud and options (`bvh_driver.cpp`) -/

/-- The linear index `ind(i, j, k) = i + j * nx + k * (nx * ny)` of
`make_stuctured_cloud`. -/
def ind (nx ny i j k : Nat) : Nat := i + j * nx + k * (nx * ny)

/-- The grid point written by `make_stuctured_cloud` at `(i, j, k)`:
`(i * Lx / (nx - 1), j * Ly / (ny - 1), k * Lz / (nz - 1))`. -/
def structuredPoint (Lx Ly Lz : Rat) (nx ny nz i j k : Nat) : Rat × Rat × Rat :=
  ((i : Rat) * Lx / ((nx : Rat) - 1),
   ((j : Rat) * Ly / ((ny : Rat) - 1),
    (k : Rat) * Lz / ((nz : Rat) - 1)))

/-- `make_stuctured_cloud`: allocate `nx * ny * nz` slots, then the triple
loop (`i` outer, `j` middle, `k` inner) writes the grid point of `(i, j, k)`
into slot `ind(i, j, k)`. -/
def makeStructuredCloud (Lx Ly Lz : Rat) (nx ny nz : Nat) : List (Rat × Rat × Rat) :=
  (List.range nx).foldl
    (fun cloud i =>
      (List.range ny).foldl
        (fun cloud j =>
          (List.range nz).foldl
            (fun cloud k =>
              cloud.set (ind nx ny i j k) (structuredPoint Lx Ly Lz nx ny nz i j k))
            cloud)
        cloud)
    (List.replicate (nx * ny * nz) ((0 : Rat), (0 : Rat), (0 : Rat)))

/-- All loop indices of the triple loop of `make_stuctured_cloud`, in loop
order: `i` outer, `j` middle, `k` inner. -/
def tripleList (nx ny nz : Nat) : List (Nat × Nat × Nat) :=
  (List.range nx).bind fun i =>
    (List.range ny).bind fun j =>
      (List.range nz).map fun k => (i, j, k)

/-- The bounding boxes built by `main_`: for each cloud point `(x, y, z)` the
box `{x, x, y, y, z, z}` whose min corner equals its max corner. -/
def driverBoxes (Lx Ly Lz : Rat) (nx ny nz : Nat) :
    List ((Rat × Rat × Rat) × (Rat × Rat × Rat)) :=
  (makeStructuredCloud Lx Ly Lz nx ny nz).map fun p => (p, p)

/-- The command-line options of `main_` that have defaults in the driver. -/
structure DriverOptions where
  nx : Int
  ny : Int
  nz : Int
  nPoints : Int
  mode : String
deriving DecidableEq, Repr

/-- Option handling of `main_`: each variable is initialized to its default
(`nx = ny = nz = 11`, `n_points = 100`, `mode = "radius"`) and
`clp.setOption` overwrites it only when the option is supplied on the
command line. -/
def parseDriverOptions (onx ony onz oN : Option Int) (omode : Option String) :
    DriverOptions :=
  { nx := onx.getD 11
    ny := ony.getD 11
    nz := onz.getD 11
    nPoints := oN.getD 100
    mode := omode.getD ("radius") }

/-! ### Concrete instances used to exercise the theorems -/

/-- A two-slot owned vector currently holding one element. -/
def sampleStatic : StaticVector Nat 2 := ⟨[7, 0], 1, rfl, by decide⟩

/-- A full one-slot owned vector. -/
def sampleStaticFull : StaticVector Nat 1 := ⟨[7], 1, rfl, by decide⟩

/-- A three-slot borrowed vector currently holding one element. -/
def sampleUnmanaged : UnmanagedStaticVector Nat := ⟨[7, 0, 0], 3, 1, rfl, by decide⟩

/-- A full one-slot borrowed vector. -/
def sampleUnmanagedFull : UnmanagedStaticVector Nat := ⟨[7], 1, 1, rfl, by decide⟩

/-- Concrete per-query match lists exercising the driver theorems. -/
def sampleHits (q : Nat) : List Nat := if q = 0 then [5, 7] else [2]

end ArborX

namespace ArborX

/-! ### Helper lemmas -/

theorem foldl_const {α β : Type} (init : β) :
    ∀ l : List α, l.foldl (fun b _ => b) init = init := by
  intro l
  induction l with
  | nil => rfl
  | cons x xs ih => simpa using ih

theorem initOffset_eq (offset : List Nat) : initOffset offset = offset :=
  foldl_const offset _

theorem getD_replicate_zero (n i : Nat) : (List.replicate n (0 : Nat)).getD i 0 = 0 := by
  induction n generalizing i with
  | zero => simp [List.getD]
  | succ n ih =>
      cases i with
      | zero => simp [List.replicate]
      | succ i => simpa [List.replicate] using ih i

theorem foldl_scanStep (xs : List Nat) (u : Nat) (out : List Nat) :
    xs.foldl scanStep (u, out) =
      (u + xs.sum, out ++ (List.range xs.length).map fun i => u + (xs.take i).sum) := by
  induction xs generalizing u out with
  | nil => simp [scanStep]
  | cons x xs ih =>
      show xs.foldl scanStep (u + x, out ++ [u]) = _
      rw [ih]
      refine Prod.ext (by simp [Nat.add_assoc]) ?_
      simp only [List.length_cons, List.range_succ_eq_map, List.map_cons, List.map_map]
      simp [Function.comp, List.take_succ_cons, Nat.add_assoc]

theorem exclusiveScan_eq (xs : List Nat) :
    exclusiveScan xs = (List.range xs.length).map fun i => (xs.take i).sum := by
  simp [exclusiveScan, foldl_scanStep]

theorem exclusiveScan_length (xs : List Nat) : (exclusiveScan xs).length = xs.length := by
  simp [exclusiveScan_eq]

theorem exclusiveScan_getD (xs : List Nat) (q : Nat) (hq : q < xs.length) :
    (exclusiveScan xs).getD q 0 = (xs.take q).sum := by
  rw [exclusiveScan_eq, List.getD_eq_getD_get?, List.get?_map, List.get?_range hq]
  rfl

theorem mapOption_get? {α β : Type} (f : α → Option β) :
    ∀ (l : List α) (r : List β), mapOption f l = some r →
      ∀ (i : Nat) (a : α), l.get? i = some a →
        ∃ b, r.get? i = some b ∧ f a = some b := by
  intro l
  induction l with
  | nil => intro r _ i a ha; simp at ha
  | cons x xs ih =>
      intro r hr i a ha
      simp only [mapOption, Option.bind_eq_some, Option.map_eq_some'] at hr
      obtain ⟨y, hy, ys, hys, rfl⟩ := hr
      cases i with
      | zero =>
          simp only [List.get?_cons_zero, Option.some.injEq] at ha
          exact ⟨y, rfl, ha ▸ hy⟩
      | succ i =>
          simp only [List.get?_cons_succ] at ha ⊢
          exact ih ys hys i a ha

theorem mapOption_mem {α β : Type} (f : α → Option β) :
    ∀ (l : List α) (r : List β), mapOption f l = some r →
      ∀ b ∈ r, ∃ a ∈ l, f a = some b := by
  intro l
  induction l with
  | nil =>
      intro r hr b hb
      simp only [mapOption, Option.some.injEq] at hr
      subst hr; simp at hb
  | cons x xs ih =>
      intro r hr b hb
      simp only [mapOption, Option.bind_eq_some, Option.map_eq_some'] at hr
      obtain ⟨y, hy, ys, hys, rfl⟩ := hr
      rcases List.mem_cons.mp hb with hb | hb
      · exact ⟨x, List.mem_cons_self _ _, hb ▸ hy⟩
      · obtain ⟨a, hal, hfa⟩ := ih ys hys b hb
        exact ⟨a, List.mem_cons_of_mem _ hal, hfa⟩

theorem axisCellCount_pos (delta h : Rat) (n : Nat)
    (hn : axisCellCount delta h = some n) : 1 ≤ n := by
  unfold axisCellCount at hn
  split at hn
  · split at hn
    · simp only [Option.some.injEq] at hn; omega
    · exact absurd hn (by simp)
  · simp only [Option.some.injEq] at hn; omega

theorem buildGridCounts_pos (mins maxs h : List Rat) (n : List Nat)
    (hc : buildGridCounts mins maxs h = some n) : ∀ x ∈ n, 1 ≤ x := by
  intro x hx
  obtain ⟨a, _, hfa⟩ := mapOption_mem _ _ _ hc x hx
  exact axisCellCount_pos _ _ _ hfa

theorem overflowCheckFrom_le :
    ∀ (xs : List Nat) (m prev : Nat), 1 ≤ prev → prev ≤ m →
      (∀ x ∈ xs, 1 ≤ x) → overflowCheckFrom m prev xs = true →
      prev * xs.prod ≤ m := by
  intro xs
  induction xs with
  | nil => intro m prev _ hle _ _; simpa using hle
  | cons x xs ih =>
      intro m prev hprev hle hx hchk
      simp only [overflowCheckFrom, Bool.and_eq_true, decide_eq_true_eq] at hchk
      obtain ⟨hlt, hrest⟩ := hchk
      have hx1 : 1 ≤ x := hx x (List.mem_cons_self _ _)
      have hxs : ∀ y ∈ xs, 1 ≤ y := fun y hy => hx y (List.mem_cons_of_mem _ hy)
      have hih : x * xs.prod ≤ m / prev := ih (m / prev) x hx1 (le_of_lt hlt) hxs hrest
      calc prev * (x :: xs).prod = prev * (x * xs.prod) := by simp [List.prod_cons]
    _ ≤ prev * (m / prev) := Nat.mul_le_mul_left _ hih
    _ ≤ m := Nat.mul_div_le m prev

theorem overflowCheck_le (n : List Nat) (h1 : ∀ x ∈ n, 1 ≤ x)
    (hw : ∀ x ∈ n, x ≤ maxSizeT) (hchk : overflowCheck n = true) :
    n.prod ≤ maxSizeT := by
  cases n with
  | nil => simp [maxSizeT]
  | cons x xs =>
      have hx1 : 1 ≤ x := h1 x (List.mem_cons_self _ _)
      have hxm : x ≤ maxSizeT := hw x (List.mem_cons_self _ _)
      have := overflowCheckFrom_le xs maxSizeT x hx1 hxm
        (fun y hy => h1 y (List.mem_cons_of_mem _ hy)) hchk
      simpa [List.prod_cons] using this

theorem countPassAux (counts : List Nat) :
    ∀ (n : Nat) (offset : List Nat), n ≤ counts.length → n ≤ offset.length →
      (List.range n).foldl (fun o i => o.set i (counts.getD i 0)) offset =
        counts.take n ++ offset.drop n := by
  intro n
  induction n with
  | zero => intro offset _ _; simp
  | succ n ih =>
      intro offset hn hoff
      rw [List.range_succ, List.foldl_append, ih offset (by omega) (by omega)]
      have hlen : (counts.take n).length = n := List.length_take_of_le (by omega)
      have hdrop : offset.drop n = offset[n] :: offset.drop (n + 1) :=
        List.drop_eq_getElem_cons (by omega)
      simp only [List.foldl_cons, List.foldl_nil]
      rw [List.set_append_right _ _ (by omega), hlen, Nat.sub_self]
      have hn' : n < counts.length := by omega
      have hsome : counts[n]? = some counts[n] := List.getElem?_eq_getElem hn'
      have htake : counts.take (n + 1) = counts.take n ++ [counts.getD n 0] := by
        rw [List.take_succ, hsome]
        simp [List.getD_eq_getElem?_getD, hsome]
      rw [htake, List.append_assoc, hdrop]
      simp only [List.set_cons_zero, List.singleton_append,
        List.getD_eq_getElem?_getD, hsome, Option.getD_some]

theorem countPass_replicate (counts : List Nat) :
    countPass counts (List.replicate (counts.length + 1) 0) = counts ++ [0] := by
  unfold countPass
  rw [countPassAux counts counts.length _ le_rfl (by simp)]
  simp [List.take_length, List.drop_replicate]

theorem take_succ_set_self {α : Type} :
    ∀ (l : List α) (n : Nat) (a : α), n < l.length →
      (l.set n a).take (n + 1) = l.take n ++ [a] := by
  intro l
  induction l with
  | nil => intro n a h; simp at h
  | cons x xs ih =>
      intro n a h
      cases n with
      | zero => simp
      | succ n =>
          simp only [List.set_cons_succ, List.take_succ_cons, List.take_cons]
          rw [ih n a (by simpa using h)]
          simp

theorem drop_set_of_lt' {α : Type} :
    ∀ (l : List α) (n m : Nat) (a : α), n < m → (l.set n a).drop m = l.drop m := by
  intro l
  induction l with
  | nil => intro n m a _; simp
  | cons x xs ih =>
      intro n m a hnm
      cases n with
      | zero =>
          cases m with
          | zero => omega
          | succ m => simp
      | succ n =>
          cases m with
          | zero => omega
          | succ m => simpa using ih n m a (by omega)

theorem writeBlock_eq :
    ∀ (vs arr : List Nat) (start : Nat), start + vs.length ≤ arr.length →
      writeBlock arr start vs = arr.take start ++ vs ++ arr.drop (start + vs.length) := by
  intro vs
  induction vs with
  | nil => intro arr start h; simp [writeBlock]
  | cons v vs ih =>
      intro arr start h
      have hstart : start < arr.length := by
        simp only [List.length_cons] at h; omega
      show writeBlock (arr.set start v) (start + 1) vs = _
      rw [ih (arr.set start v) (start + 1)
        (by simp only [List.length_cons, List.length_set] at h ⊢; omega)]
      rw [take_succ_set_self arr start v hstart,
        drop_set_of_lt' arr start (start + 1 + vs.length) v (by omega)]
      simp only [List.append_assoc, List.cons_append, List.nil_append,
        List.singleton_append, List.length_cons]
      have harith : start + 1 + vs.length = start + (vs.length + 1) := by omega
      rw [harith]

theorem fillLoop_spec {Q : Type} (hits : Q → List Nat) (offset : List Nat) :
    ∀ (qs : List Q) (i : Nat) (done : List Nat),
      (∀ t, t ≤ qs.length →
        offset.getD (i + t) 0 =
          done.length + ((qs.take t).map fun q => (hits q).length).sum) →
      fillLoop hits offset i qs
          (done ++ List.replicate ((qs.map fun q => (hits q).length).sum) 0) =
        done ++ (qs.map hits).join := by
  intro qs
  induction qs with
  | nil => intro i done _; simp [fillLoop]
  | cons q qs ih =>
      intro i done hoff
      have hstart : offset.getD i 0 = done.length := by
        have := hoff 0 (by omega)
        simpa using this
      show fillLoop hits offset (i + 1) qs
          (writeBlock (done ++ List.replicate _ 0) (offset.getD i 0) (hits q)) =
        done ++ ((q :: qs).map hits).join
      have hsum : ((q :: qs).map fun r => (hits r).length).sum =
          (hits q).length + ((qs.map fun r => (hits r).length).sum) := by simp
      rw [hstart, hsum]
      have hwb : writeBlock
          (done ++ List.replicate ((hits q).length + ((qs.map fun r => (hits r).length).sum)) 0)
          done.length (hits q) =
          (done ++ hits q) ++ List.replicate ((qs.map fun r => (hits r).length).sum) 0 := by
        rw [writeBlock_eq _ _ _ (by simp)]
        rw [List.take_left, List.drop_append_eq_append_drop]
        simp [List.drop_replicate]
      rw [hwb, ih (i + 1) (done ++ hits q) ?_]
      · simp
      · intro t ht
        have := hoff (t + 1) (by simpa using ht)
        have harith : i + (t + 1) = i + 1 + t := by omega
        rw [harith] at this
        rw [this]
        simp [Nat.add_assoc]

theorem join_drop_take :
    ∀ (bs : List (List Nat)) (q : Nat) (hq : q < bs.length),
      ((bs.join.drop (((bs.take q).map List.length).sum)).take
        (bs.get ⟨q, hq⟩).length) = bs.get ⟨q, hq⟩ := by
  intro bs
  induction bs with
  | nil => intro q hq; simp at hq
  | cons b bs ih =>
      intro q hq
      cases q with
      | zero => simp [List.take_left]
      | succ q =>
          have hq' : q < bs.length := by simpa using hq
          have : ((b :: bs).take (q + 1)).map List.length =
              b.length :: ((bs.take q).map List.length) := by simp
          rw [this]
          simp only [List.sum_cons, List.join_cons, List.get_cons_succ]
          rw [List.drop_append_eq_append_drop]
          have hdb : b.drop (b.length + ((bs.take q).map List.length).sum) = [] := by
            apply List.drop_eq_nil_of_le; omega
          rw [hdb]
          have : b.length + ((bs.take q).map List.length).sum - b.length =
              ((bs.take q).map List.length).sum := by omega
          rw [this]
          simpa using ih q hq'

theorem foldl_bind {α β γ : Type} (f : β → α → β) (g : γ → List α) :
    ∀ (l : List γ) (init : β),
      (l.bind g).foldl f init =
        l.foldl (fun acc c => (g c).foldl f acc) init := by
  intro l
  induction l with
  | nil => intro init; rfl
  | cons x xs ih =>
      intro init
      rw [show (x :: xs).bind g = g x ++ xs.bind g from rfl,
        List.foldl_append, List.foldl_cons, ih]

theorem makeStructuredCloud_eq_fold (Lx Ly Lz : Rat) (nx ny nz : Nat) :
    makeStructuredCloud Lx Ly Lz nx ny nz =
      (tripleList nx ny nz).foldl
        (fun cloud t => cloud.set (ind nx ny t.1 t.2.1 t.2.2)
          (structuredPoint Lx Ly Lz nx ny nz t.1 t.2.1 t.2.2))
        (List.replicate (nx * ny * nz) ((0 : Rat), (0 : Rat), (0 : Rat))) := by
  unfold makeStructuredCloud tripleList
  rw [foldl_bind]
  congr 1
  funext acc i
  rw [foldl_bind]
  congr 1
  funext acc2 j
  rw [List.foldl_map]

theorem foldl_set_length {α β : Type} (tgt : β → Nat) (val : β → α) :
    ∀ (ws : List β) (arr : List α),
      (ws.foldl (fun a w => a.set (tgt w) (val w)) arr).length = arr.length := by
  intro ws
  induction ws with
  | nil => intro arr; rfl
  | cons w ws ih => intro arr; rw [List.foldl_cons, ih, List.length_set]

theorem foldl_set_get?_of_not_mem {α β : Type} (tgt : β → Nat) (val : β → α) :
    ∀ (ws : List β) (arr : List α) (p : Nat), (∀ w ∈ ws, tgt w ≠ p) →
      (ws.foldl (fun a w => a.set (tgt w) (val w)) arr).get? p = arr.get? p := by
  intro ws
  induction ws with
  | nil => intro arr p _; rfl
  | cons w ws ih =>
      intro arr p hne
      rw [List.foldl_cons, ih _ p fun u hu => hne u (List.mem_cons_of_mem _ hu)]
      exact List.get?_set_ne _ _ (hne w (List.mem_cons_self _ _))

theorem foldl_set_get?_of_pairwise {α β : Type} (tgt : β → Nat) (val : β → α) :
    ∀ (ws : List β) (arr : List α) (w : β),
      ws.Pairwise (fun a b => tgt a ≠ tgt b) → w ∈ ws → tgt w < arr.length →
      (ws.foldl (fun a u => a.set (tgt u) (val u)) arr).get? (tgt w) =
        some (val w) := by
  intro ws
  induction ws with
  | nil => intro arr w _ hw _; exact absurd hw (List.not_mem_nil w)
  | cons u ws ih =>
      intro arr w hpw hw hlt
      have hu : ∀ b ∈ ws, tgt u ≠ tgt b := (List.pairwise_cons.mp hpw).1
      have hpw' : ws.Pairwise fun a b => tgt a ≠ tgt b := (List.pairwise_cons.mp hpw).2
      rw [List.foldl_cons]
      rcases List.mem_cons.mp hw with hwu | hwm
      · subst hwu
        rw [foldl_set_get?_of_not_mem tgt val ws _ (tgt w)
          fun b hb => (hu b hb).symm]
        exact List.get?_set_eq_of_lt _ hlt
      · exact ih (arr.set (tgt u) (val u)) w hpw' hwm (by simpa using hlt)

theorem mem_tripleList (nx ny nz i j k : Nat) :
    (i, j, k) ∈ tripleList nx ny nz ↔ i < nx ∧ j < ny ∧ k < nz := by
  simp only [tripleList, List.mem_bind, List.mem_map, List.mem_range,
    Prod.mk.injEq]
  constructor
  · rintro ⟨a, ha, b, hb, c, hc, rfl, rfl, rfl⟩
    exact ⟨ha, hb, hc⟩
  · rintro ⟨ha, hb, hc⟩
    exact ⟨i, ha, j, hb, k, hc, rfl, rfl, rfl⟩

theorem ind_lt (nx ny nz i j k : Nat) (hi : i < nx) (hj : j < ny) (hk : k < nz) :
    ind nx ny i j k < nx * ny * nz := by
  unfold ind
  calc i + j * nx + k * (nx * ny)
      < nx + j * nx + k * (nx * ny) := by omega
    _ = (1 + j) * nx + k * (nx * ny) := by ring
    _ ≤ ny * nx + k * (nx * ny) := by
        have h1 : 1 + j ≤ ny := by omega
        exact Nat.add_le_add_right (Nat.mul_le_mul_right nx h1) _
    _ = (1 + k) * (nx * ny) := by ring
    _ ≤ nz * (nx * ny) := by
        have h2 : 1 + k ≤ nz := by omega
        exact Nat.mul_le_mul_right _ h2
    _ = nx * ny * nz := by ring

theorem ind_inj (nx ny : Nat) {i j k iq jq kq : Nat}
    (hi : i < nx) (hj : j < ny) (hiq : iq < nx) (hjq : jq < ny)
    (heq : ind nx ny i j k = ind nx ny iq jq kq) :
    i = iq ∧ j = jq ∧ k = kq := by
  have hx : 0 < nx := by omega
  have hy : 0 < ny := by omega
  have h1 : i + nx * (j + ny * k) = iq + nx * (jq + ny * kq) := by
    have h0 := heq
    unfold ind at h0
    ring_nf at h0 ⊢
    exact h0
  have hmod := congrArg (fun z => z % nx) h1
  simp only [Nat.add_mul_mod_self_left] at hmod
  have hieq : i = iq := by
    rwa [Nat.mod_eq_of_lt hi, Nat.mod_eq_of_lt hiq] at hmod
  subst hieq
  have h2 : j + ny * k = jq + ny * kq :=
    Nat.eq_of_mul_eq_mul_left hx (Nat.add_left_cancel h1)
  have hmod2 := congrArg (fun z => z % ny) h2
  simp only [Nat.add_mul_mod_self_left] at hmod2
  have hjeq : j = jq := by
    rwa [Nat.mod_eq_of_lt hj, Nat.mod_eq_of_lt hjq] at hmod2
  subst hjeq
  exact ⟨rfl, rfl, Nat.eq_of_mul_eq_mul_left hy (Nat.add_left_cancel h2)⟩

theorem tripleList_nodup (nx ny nz : Nat) : (tripleList nx ny nz).Nodup := by
  unfold tripleList
  rw [List.nodup_bind]
  refine ⟨fun i _ => ?_, ?_⟩
  · rw [List.nodup_bind]
    refine ⟨fun j _ => ?_, ?_⟩
    · exact (List.nodup_range nz).map fun a b hab => by
        simpa [Prod.ext_iff] using hab
    · refine List.Pairwise.imp ?_ (List.nodup_range ny)
      intro a b hab
      intro x hxa hxb
      simp only [List.mem_map, List.mem_range] at hxa hxb
      obtain ⟨ka, _, rfl⟩ := hxa
      obtain ⟨kb, _, hkb⟩ := hxb
      simp only [Prod.mk.injEq] at hkb
      exact hab hkb.2.1.symm
  · refine List.Pairwise.imp ?_ (List.nodup_range nx)
    intro a b hab
    intro x hxa hxb
    simp only [List.mem_bind, List.mem_map, List.mem_range] at hxa hxb
    obtain ⟨ja, _, ka, _, rfl⟩ := hxa
    obtain ⟨jb, _, kb, _, hkb⟩ := hxb
    simp only [Prod.mk.injEq] at hkb
    exact hab hkb.1.symm

theorem tripleList_pairwise_ind (nx ny nz : Nat) :
    (tripleList nx ny nz).Pairwise
      (fun a b => ind nx ny a.1 a.2.1 a.2.2 ≠ ind nx ny b.1 b.2.1 b.2.2) := by
  refine List.Pairwise.imp_of_mem ?_ (tripleList_nodup nx ny nz)
  intro a b ha hb hne heq
  obtain ⟨ha1, ha2, ha3⟩ := (mem_tripleList nx ny nz a.1 a.2.1 a.2.2).mp ha
  obtain ⟨hb1, hb2, hb3⟩ := (mem_tripleList nx ny nz b.1 b.2.1 b.2.2).mp hb
  obtain ⟨e1, e2, e3⟩ := ind_inj nx ny ha1 ha2 hb1 hb2 heq
  exact hne (Prod.ext e1 (Prod.ext e2 e3))

theorem makeStructuredCloud_length (Lx Ly Lz : Rat) (nx ny nz : Nat) :
    (makeStructuredCloud Lx Ly Lz nx ny nz).length = nx * ny * nz := by
  rw [makeStructuredCloud_eq_fold, foldl_set_length, List.length_replicate]

theorem makeStructuredCloud_get (Lx Ly Lz : Rat) (nx ny nz i j k : Nat)
    (hi : i < nx) (hj : j < ny) (hk : k < nz) :
    (makeStructuredCloud Lx Ly Lz nx ny nz).get? (ind nx ny i j k) =
      some (structuredPoint Lx Ly Lz nx ny nz i j k) := by
  rw [makeStructuredCloud_eq_fold]
  exact foldl_set_get?_of_pairwise
    (fun t : Nat × Nat × Nat => ind nx ny t.1 t.2.1 t.2.2)
    (fun t => structuredPoint Lx Ly Lz nx ny nz t.1 t.2.1 t.2.2)
    (tripleList nx ny nz)
    (List.replicate (nx * ny * nz) ((0 : Rat), (0 : Rat), (0 : Rat)))
    (i, j, k)
    (tripleList_pairwise_ind nx ny nz)
    ((mem_tripleList nx ny nz i j k).mpr ⟨hi, hj, hk⟩)
    (by simpa using ind_lt nx ny nz i j k hi hj hk)

/-! ### Claims about the containers -/

/-- Claim C4: for both fixed-capacity vectors, `pushBack` and `emplaceBack`
on a full vector fail the assertion, and on a non-full vector succeed,
incrementing the size by one and storing the value as the new back element. -/
theorem pushBack_contract {α : Type} {N : Nat} (v : StaticVector α N) (x : α)
    (u : UnmanagedStaticVector α) (y : α) :
    (v.size = N → v.pushBack x = none ∧ v.emplaceBack x = none) ∧
    (v.size < N →
      (v.pushBack x).map StaticVector.size = some (v.size + 1) ∧
      (v.pushBack x).bind StaticVector.back = some x ∧
      v.emplaceBack x = v.pushBack x) ∧
    (u.size = u.maxSize → u.pushBack y = none ∧ u.emplaceBack y = none) ∧
    (u.size < u.maxSize →
      (u.pushBack y).map UnmanagedStaticVector.size = some (u.size + 1) ∧
      (u.pushBack y).bind UnmanagedStaticVector.back = some y ∧
      u.emplaceBack y = u.pushBack y) := by
  refine ⟨fun hfull => ?_, fun hlt => ?_, fun hfull => ?_, fun hlt => ?_⟩
  · have : ¬v.size < N := by omega
    simp [StaticVector.pushBack, StaticVector.emplaceBack, this]
  · refine ⟨?_, ?_, ?_⟩
    · simp [StaticVector.pushBack, hlt]
    · simp only [StaticVector.pushBack, hlt, dif_pos, Option.some_bind]
      simp [StaticVector.back, List.get_set_eq]
    · simp [StaticVector.pushBack, StaticVector.emplaceBack]
  · have : ¬u.size < u.maxSize := by omega
    simp [UnmanagedStaticVector.pushBack, UnmanagedStaticVector.emplaceBack, this]
  · refine ⟨?_, ?_, ?_⟩
    · simp [UnmanagedStaticVector.pushBack, hlt]
    · simp only [UnmanagedStaticVector.pushBack, hlt, dif_pos, Option.some_bind]
      simp [UnmanagedStaticVector.back, List.get_set_eq]
    · simp [UnmanagedStaticVector.pushBack, UnmanagedStaticVector.emplaceBack]

/-- Witness for C4 at concrete vectors: a full one-slot vector rejects a
push, and a one-of-two-slot vector accepts it, growing to size 2 with the
pushed value at the back; same for the borrowed flavor. -/
theorem pushBack_contract_witness :
    (sampleStaticFull.pushBack 9 = none ∧ sampleStaticFull.emplaceBack 9 = none) ∧
    ((sampleStatic.pushBack 9).map StaticVector.size = some 2) ∧
    ((sampleStatic.pushBack 9).bind StaticVector.back = some 9) ∧
    (sampleUnmanagedFull.pushBack 9 = none ∧ sampleUnmanagedFull.emplaceBack 9 = none) ∧
    ((sampleUnmanaged.pushBack 9).map UnmanagedStaticVector.size = some 2) ∧
    ((sampleUnmanaged.pushBack 9).bind UnmanagedStaticVector.back = some 9) := by
  have h1 := pushBack_contract sampleStaticFull 9 sampleUnmanagedFull 9
  have h2 := pushBack_contract sampleStatic 9 sampleUnmanaged 9
  exact ⟨h1.1 (by decide), (h2.2.1 (by decide)).1, (h2.2.1 (by decide)).2.1,
    h1.2.2.1 (by decide), (h2.2.2.2 (by decide)).1, (h2.2.2.2 (by decide)).2.1⟩

/-- Claim C10: for both fixed-capacity vectors, element access through
`operator[]`, `front` and `back` is guarded by the current size, not the
capacity: it fails the assertion exactly when the position reaches the size
(resp. when the vector is empty). -/
theorem access_guarded_by_size {α : Type} {N : Nat} (v : StaticVector α N)
    (pos : Nat) (u : UnmanagedStaticVector α) (qos : Nat) :
    (v.opIndex pos = none ↔ v.size ≤ pos) ∧
    (v.front = none ↔ v.size = 0) ∧
    (v.back = none ↔ v.size = 0) ∧
    (u.opIndex qos = none ↔ u.size ≤ qos) ∧
    (u.front = none ↔ u.size = 0) ∧
    (u.back = none ↔ u.size = 0) := by
  refine ⟨?_, ?_, ?_, ?_, ?_, ?_⟩ <;>
    · simp only [StaticVector.opIndex, StaticVector.front, StaticVector.back,
        UnmanagedStaticVector.opIndex, UnmanagedStaticVector.front,
        UnmanagedStaticVector.back]
      split <;> simp <;> omega

/-! ### Claims about the Cartesian grid -/

/-- Claim C9: after successful grid construction every axis has at least one
cell, and an axis whose bounds have zero extent gets exactly one cell.  (The
cell counts `_n` are written only by `buildGrid`, which runs once from the
constructors, so the invariant never changes afterwards.) -/
theorem grid_extent_ge_one (mins maxs h : List Rat) (n : List Nat)
    (hb : buildGrid mins maxs h = some n) :
    ∀ (d : Nat) (mn mx hd : Rat), mins.get? d = some mn →
      maxs.get? d = some mx → h.get? d = some hd →
      1 ≤ n.getD d 0 ∧ (mx = mn → n.getD d 0 = 1) := by
  intro d mn mx hd hmn hmx hhd
  have hc : buildGridCounts mins maxs h = some n := by
    unfold buildGrid at hb
    cases hcc : buildGridCounts mins maxs h with
    | none => rw [hcc] at hb; simp at hb
    | some m =>
        rw [hcc] at hb
        simp only [Option.some_bind] at hb
        split at hb
        · simpa [hcc] using hb
        · simp at hb
  have hz : ((mins.zip maxs).zip h).get? d = some ((mn, mx), hd) := by
    rw [List.get?_zip_eq_some]
    refine ⟨?_, hhd⟩
    rw [List.get?_zip_eq_some]
    exact ⟨hmn, hmx⟩
  obtain ⟨b, hbd, hax⟩ := mapOption_get? _ _ n hc d _ hz
  have hget : n.getD d 0 = b := by
    rw [List.getD_eq_getD_get?, hbd]; rfl
  refine ⟨hget ▸ axisCellCount_pos _ _ _ hax, fun heq => ?_⟩
  rw [hget]
  unfold axisCellCount at hax
  rw [if_neg (by simp [heq])] at hax
  exact (Option.some.injEq _ _ ▸ hax).symm

/-- Witness for C9 on a 2-d grid with bounds `[0,0] × [0,3]` and unit
spacings: the constructed counts are `[1, 3]`, and axis 0 (zero extent) has
exactly one cell. -/
theorem grid_extent_ge_one_witness :
    1 ≤ List.getD [1, 3] 0 0 ∧ ((0 : Rat) = 0 → List.getD [1, 3] 0 0 = 1) :=
  grid_extent_ge_one [0, 0] [0, 3] [1, 1] [1, 3]
    (by simp [buildGrid, buildGridCounts, mapOption, axisCellCount,
      overflowCheck, overflowCheckFrom, maxSizeT, List.zip])
    0 0 0 1 rfl rfl rfl

/-- Claim C5: when the product of the per-axis cell counts would exceed
`size_t`, the overflow precondition check of `buildGrid` fails the assertion
and construction aborts instead of producing a grid with wrapped cell
indices. -/
theorem overflow_aborts_build (mins maxs h : List Rat) (n : List Nat)
    (hc : buildGridCounts mins maxs h = some n)
    (hw : ∀ x ∈ n, x ≤ maxSizeT)
    (hov : maxSizeT < n.prod) :
    buildGrid mins maxs h = none := by
  have h1 := buildGridCounts_pos mins maxs h n hc
  have hfalse : overflowCheck n = false := by
    cases hchk : overflowCheck n
    · rfl
    · exact absurd (overflowCheck_le n h1 hw hchk) (by omega)
  simp [buildGrid, hc, hfalse]

/-- Witness for C5: a 2-d grid with `2^32` cells on each axis — the product
`2^64` no longer fits in `size_t`, and construction aborts. -/
theorem overflow_aborts_build_witness :
    buildGrid [0, 0] [(4294967296 : Rat), 4294967296] [1, 1] = none :=
  overflow_aborts_build [0, 0] [(4294967296 : Rat), 4294967296] [1, 1]
    [4294967296, 4294967296]
    (by simp [buildGridCounts, mapOption, axisCellCount, List.zip])
    (by decide) (by decide)

/-- Claim C8 is refuted by the code: the per-axis constructor loop executes
`ARBORX_ASSERT(_h[d] > 0); _h[d] = h[d];`, checking the indeterminate
initial contents of the member `_h` instead of the supplied spacing.  With
initial contents `[1]` it accepts the non-positive supplied spacing `[-1]`
without any assertion firing, and with initial contents `[-1]` it rejects
the positive supplied spacing `[1]`. -/
theorem array_ctor_checks_wrong_spacing :
    cartesianGridArray [0] [0] [1] [-1] = some ([-1], [1]) ∧
    cartesianGridArray [0] [0] [-1] [1] = none := by
  constructor <;>
    simp [cartesianGridArray, arrayCtorLoop, buildGrid, buildGridCounts,
      mapOption, axisCellCount, overflowCheck, overflowCheckFrom]

/-! ### Claims about the example driver options -/

/-- Claim C6: when the corresponding command-line options are not supplied,
the driver defaults are `nx = ny = nz = 11`, `N = 100` random query points,
and `mode = "radius"`. -/
theorem driver_option_defaults :
    parseDriverOptions none none none none none =
      { nx := 11, ny := 11, nz := 11, nPoints := 100, mode := "radius" } := rfl

/-! ### Claims about the batched query driver -/

/-- Claim C3: after resizing `offset` to `n_queries + 1` (value-initialized
by `Kokkos::resize`) and running the initializing `parallel_for` (whose body
only reads), every entry of `offset` — in particular the last one — is
zero. -/
theorem offset_zero_after_init (nq : Nat) :
    (initOffset (List.replicate (nq + 1) 0)).length = nq + 1 ∧
    ∀ i, i < nq + 1 → (initOffset (List.replicate (nq + 1) 0)).getD i 0 = 0 := by
  rw [initOffset_eq]
  exact ⟨List.length_replicate _ _, fun i _ => getD_replicate_zero _ i⟩

/-- Witness for C3 with three queries: the final entry `offset[3]` is zero. -/
theorem offset_zero_after_init_witness :
    (initOffset (List.replicate (3 + 1) 0)).getD 3 0 = 0 :=
  (offset_zero_after_init 3).2 3 (by decide)

/-- Claim C2: the scan phase turns the per-query counts stored in
`offset[0 .. Q)` (with `offset[Q] = 0` left from initialization) into an
exclusive prefix sum: `offset[q]` becomes the sum of the counts of the
queries strictly before `q`, and `offset[Q]` the total match count. -/
theorem scan_exclusive_sum (counts : List Nat) :
    (exclusiveScan (counts ++ [0])).length = counts.length + 1 ∧
    (∀ q, q ≤ counts.length →
      (exclusiveScan (counts ++ [0])).getD q 0 = (counts.take q).sum) ∧
    (exclusiveScan (counts ++ [0])).getD counts.length 0 = counts.sum := by
  have hlen : (counts ++ [0]).length = counts.length + 1 := by simp
  have hgen : ∀ q, q ≤ counts.length →
      (exclusiveScan (counts ++ [0])).getD q 0 = (counts.take q).sum := by
    intro q hq
    rw [exclusiveScan_getD _ _ (by omega), List.take_append_of_le_length hq]
  refine ⟨by rw [exclusiveScan_length, hlen], hgen, ?_⟩
  rw [hgen counts.length le_rfl, List.take_length]

theorem queryDriver_offset {Q : Type} (hits : Q → List Nat) (queries : List Q) :
    (queryDriver hits queries).1 =
      exclusiveScan ((queries.map fun q => (hits q).length) ++ [0]) := by
  have h0 : (queryDriver hits queries).1 =
      exclusiveScan (countPass (queries.map fun q => (hits q).length)
        (initOffset (List.replicate (queries.length + 1) 0))) := rfl
  rw [h0, initOffset_eq]
  have h1 := countPass_replicate (queries.map fun q => (hits q).length)
  simp only [List.length_map] at h1
  rw [h1]

theorem queryDriver_offset_getD {Q : Type} (hits : Q → List Nat) (queries : List Q)
    (t : Nat) (ht : t ≤ queries.length) :
    (queryDriver hits queries).1.getD t 0 =
      ((queries.take t).map fun q => (hits q).length).sum := by
  rw [queryDriver_offset,
    exclusiveScan_getD _ _ (by simp only [List.length_append, List.length_map,
      List.length_cons, List.length_nil]; omega),
    List.take_append_of_le_length (by simp only [List.length_map]; omega),
    ← List.map_take]

theorem take_succ_sum_hits {Q : Type} (hits : Q → List Nat) (queries : List Q)
    (t : Nat) (ht : t < queries.length) :
    ((queries.take (t + 1)).map fun r => (hits r).length).sum =
      ((queries.take t).map fun r => (hits r).length).sum +
        (hits (queries.get ⟨t, ht⟩)).length := by
  rw [List.take_succ, List.getElem?_eq_getElem ht]
  simp only [Option.toList_some, List.map_append, List.sum_append, List.map_cons,
    List.map_nil, List.sum_cons, List.sum_nil, List.get_eq_getElem, Nat.add_zero]

theorem queryDriver_indices {Q : Type} (hits : Q → List Nat) (queries : List Q) :
    (queryDriver hits queries).2 = (queries.map hits).join := by
  have h0 : (queryDriver hits queries).2 =
      fillLoop hits (queryDriver hits queries).1 0 queries
        (List.replicate ((queryDriver hits queries).1.getD queries.length 0) 0) := rfl
  rw [h0]
  have htot : (queryDriver hits queries).1.getD queries.length 0 =
      ((queries.map fun q => (hits q).length)).sum := by
    rw [queryDriver_offset_getD hits queries queries.length le_rfl, List.take_length]
  rw [htot]
  have hspec := fillLoop_spec hits (queryDriver hits queries).1 queries 0 []
    (by intro t ht; simpa using queryDriver_offset_getD hits queries t ht)
  simpa using hspec

/-- Witness for C2 at counts `[2, 3, 4]`: the scanned offsets at positions
2 and 3 are the partial sum 5 and the total 9. -/
theorem scan_exclusive_sum_witness :
    (exclusiveScan ([2, 3, 4] ++ [0])).getD 2 0 = ([2, 3, 4].take 2).sum ∧
    (exclusiveScan ([2, 3, 4] ++ [0])).getD 3 0 = [2, 3, 4].sum :=
  ⟨(scan_exclusive_sum [2, 3, 4]).2.1 2 (by decide),
   (scan_exclusive_sum [2, 3, 4]).2.2⟩

theorem structuredPoint_default_origin :
    structuredPoint 100 100 100 11 11 11 0 0 0 =
      ((0 : Rat), (0 : Rat), (0 : Rat)) := by
  norm_num [structuredPoint]

theorem structuredPoint_default_corner :
    structuredPoint 100 100 100 11 11 11 10 10 10 =
      ((100 : Rat), (100 : Rat), (100 : Rat)) := by
  norm_num [structuredPoint]

/-- Claim C7: for `nx, ny, nz ≥ 2` the driver builds its bounding boxes over
exactly `nx * ny * nz` primitives, each a zero-extent box (min corner equal
to max corner) at the structured grid point
`(i * Lx / (nx - 1), j * Ly / (ny - 1), k * Lz / (nz - 1))`, stored at
linear index `i + j * nx + k * nx * ny`. -/
theorem structured_cloud_layout (Lx Ly Lz : Rat) (nx ny nz : Nat)
    (hnx : 2 ≤ nx) (hny : 2 ≤ ny) (hnz : 2 ≤ nz) :
    (driverBoxes Lx Ly Lz nx ny nz).length = nx * ny * nz ∧
    ∀ i j k, i < nx → j < ny → k < nz →
      (driverBoxes Lx Ly Lz nx ny nz).get? (ind nx ny i j k) =
        some (structuredPoint Lx Ly Lz nx ny nz i j k,
          structuredPoint Lx Ly Lz nx ny nz i j k) := by
  constructor
  · rw [driverBoxes, List.length_map, makeStructuredCloud_length]
  · intro i j k hi hj hk
    rw [driverBoxes, List.get?_map,
      makeStructuredCloud_get Lx Ly Lz nx ny nz i j k hi hj hk]
    rfl

/-- Witness for C7 at the driver defaults (`Lx = Ly = Lz = 100`,
`nx = ny = nz = 11`): the cloud has `11^3` boxes and spans `[0, 100]^3`,
with the zero-extent corner boxes at linear indices `ind 0 0 0` and
`ind 10 10 10`. -/
theorem structured_cloud_layout_witness :
    (driverBoxes 100 100 100 11 11 11).length = 11 * 11 * 11 ∧
    (driverBoxes 100 100 100 11 11 11).get? (ind 11 11 0 0 0) =
      some (((0 : Rat), (0 : Rat), (0 : Rat)),
        ((0 : Rat), (0 : Rat), (0 : Rat))) ∧
    (driverBoxes 100 100 100 11 11 11).get? (ind 11 11 10 10 10) =
      some (((100 : Rat), (100 : Rat), (100 : Rat)),
        ((100 : Rat), (100 : Rat), (100 : Rat))) := by
  have h := structured_cloud_layout 100 100 100 11 11 11
    (by decide) (by decide) (by decide)
  refine ⟨h.1, ?_, ?_⟩
  · rw [h.2 0 0 0 (by decide) (by decide) (by decide),
      structuredPoint_default_origin]
  · rw [h.2 10 10 10 (by decide) (by decide) (by decide),
      structuredPoint_default_corner]

/-- Claim C1: on success the batched query driver leaves `offsets` with
length `Q + 1`, `offsets[0] = 0`, `offsets` non-decreasing,
`offsets[Q] = indices.length`, and for each `q` the slice
`indices[offsets[q] .. offsets[q+1])` lists exactly the matching primitive
indices for predicate `q` in traversal order.  The tree traversal
(`TreeTraversal::query`, not among the sources) is modelled from the spec by
the abstract per-predicate match list `hits`. -/
theorem query_driver_contract {Q : Type} (hits : Q → List Nat) (queries : List Q) :
    (queryDriver hits queries).1.length = queries.length + 1 ∧
    (queryDriver hits queries).1.getD 0 0 = 0 ∧
    (∀ q, q < queries.length →
      (queryDriver hits queries).1.getD q 0 ≤
        (queryDriver hits queries).1.getD (q + 1) 0) ∧
    (queryDriver hits queries).1.getD queries.length 0 =
      (queryDriver hits queries).2.length ∧
    ∀ q, (hq : q < queries.length) →
      ((queryDriver hits queries).2.drop ((queryDriver hits queries).1.getD q 0)).take
          ((queryDriver hits queries).1.getD (q + 1) 0 -
            (queryDriver hits queries).1.getD q 0) =
        hits (queries.get ⟨q, hq⟩) := by
  refine ⟨?_, ?_, ?_, ?_, ?_⟩
  · rw [queryDriver_offset, exclusiveScan_length]
    simp
  · simpa using queryDriver_offset_getD hits queries 0 (Nat.zero_le _)
  · intro q hq
    rw [queryDriver_offset_getD hits queries q (by omega),
      queryDriver_offset_getD hits queries (q + 1) (by omega),
      take_succ_sum_hits hits queries q hq]
    exact Nat.le_add_right _ _
  · rw [queryDriver_offset_getD hits queries queries.length le_rfl, List.take_length,
      queryDriver_indices, List.length_join, List.map_map]
    rfl
  · intro q hq
    have hq' : q < (queries.map hits).length := by simpa using hq
    have hjdt := join_drop_take (queries.map hits) q hq'
    have hget : (queries.map hits).get ⟨q, hq'⟩ = hits (queries.get ⟨q, hq⟩) := by
      simp [List.get_eq_getElem]
    have hS : (((queries.map hits).take q).map List.length).sum =
        ((queries.take q).map fun r => (hits r).length).sum := by
      rw [← List.map_take, List.map_map]
      rfl
    rw [hget, hS] at hjdt
    rw [queryDriver_indices, queryDriver_offset_getD hits queries q (by omega),
      queryDriver_offset_getD hits queries (q + 1) (by omega),
      take_succ_sum_hits hits queries q hq]
    have hdiff : ((queries.take q).map fun r => (hits r).length).sum +
          (hits (queries.get ⟨q, hq⟩)).length -
        ((queries.take q).map fun r => (hits r).length).sum =
        (hits (queries.get ⟨q, hq⟩)).length := by omega
    rw [hdiff]
    exact hjdt

/-- Witness for C1 with two concrete queries whose match lists are `[5, 7]`
and `[2]`: the driver computes offsets `[0, 2, 3]` and indices `[5, 7, 2]`,
and the slice of query 0 equals its match list. -/
theorem query_driver_contract_witness :
    (queryDriver sampleHits [0, 1]).1 = [0, 2, 3] ∧
    (queryDriver sampleHits [0, 1]).2 = [5, 7, 2] ∧
    ((queryDriver sampleHits [0, 1]).2.drop
        ((queryDriver sampleHits [0, 1]).1.getD 0 0)).take
        ((queryDriver sampleHits [0, 1]).1.getD (0 + 1) 0 -
          (queryDriver sampleHits [0, 1]).1.getD 0 0) =
      sampleHits ([0, 1].get ⟨0, by decide⟩) :=
  ⟨by decide, by decide,
    (query_driver_contract sampleHits [0, 1]).2.2.2.2 0 (by decide)⟩

end ArborX
